import Mathlib

/-!
Verification of the PennyLane dataset-attribute serialization layer
(`pennylane/data/**`): a shallow embedding, in Lean 4, of the operator
(de)serializer (`pennylane/data/attributes/operator/operator.py` and
`_wires.py`), the attribute-type mapper and its cache
(`pennylane/data/base/mapper.py`), the string, none and qchem-Hamiltonian
attribute types, together with theorems about round-trips, error behaviour
and cache coherence.

Modelling conventions:
* HDF5/Zarr groups and arrays are modelled as inductive trees / association
  lists; writing an array is byte-identity, so "bit-for-bit equal" becomes
  Lean equality of the modelled payloads.
* Python exceptions become an explicit error type `DsError`; a function that
  can raise returns `Except DsError _`.
* Numeric operator parameters are modelled by an integer scalar type
  (`Param`); the serializer copies them verbatim in both directions, so
  nothing about their arithmetic is relevant.
* JSON-encoding of wire labels composed with JSON-decoding is the identity
  on the value universe used here (null / bool / int / str), so the model
  keeps decoded values rather than JSON text.  Float labels are outside the
  model.
-/

namespace PLData

/-- A JSON-compatible scalar value, the universe of wire labels that
`_wires._JSON_TYPES = {int, str, float, NoneType, bool}` accepts (floats are
not modelled). -/
inductive JVal where
  | jnull
  | jbool (b : Bool)
  | jint (n : Int)
  | jstr (s : String)
deriving DecidableEq, Repr

/-- A wire label as seen by `wires_to_json` (`_wires.py`): its runtime type is
either one of the JSON types, or a `numbers.Integral` type whose conversion
`int(w)` preserves the hash or not (`hashStable`), or some other type that is
neither. -/
inductive Wire where
  | json (v : JVal)
  | integral (n : Int) (hashStable : Bool)
  | other (tag : String)
deriving DecidableEq, Repr

/-- Python exceptions raised by the modelled code.  `unserializableWire`
models `UnserializableWireError`, which the source defines as a subclass of
`TypeError`; `keyError` models `KeyError` (a `LookupError`, neither a
`TypeError` nor a `ValueError`); `unknownType` models the fatal
unknown-`type_id` failure of the registry. -/
inductive DsError where
  | typeError (msg : String)
  | valueError (msg : String)
  | keyError (key : String)
  | unserializableWire (w : Wire)
  | unknownType (type_id : String)
deriving DecidableEq, Repr

/-- `True` exactly for errors that are (subclasses of) `TypeError` or
`ValueError` in the source: `UnserializableWireError` derives `TypeError`;
`KeyError` and the unknown-`type_id` failure are neither. -/
def DsError.is_type_or_value_error : DsError → Bool
  | .typeError _ => true
  | .valueError _ => true
  | .unserializableWire _ => true
  | .keyError _ => false
  | .unknownType _ => false

/-- `wires_to_json` (`pennylane/data/attributes/operator/_wires.py`), on the
sequence of labels of a `Wires` object.  Transcribing the source loop: a
label of a JSON type is appended as-is; a non-JSON `numbers.Integral` label
is converted with `int(...)` and appended, unless the conversion changes the
hash, in which case `UnserializableWireError` is raised; a label that is
neither falls through BOTH conditionals, so nothing is appended and no error
is raised (the loop body has no `else` branch for this case). -/
def wires_to_json : List Wire → Except DsError (List JVal)
  | [] => .ok []
  | w :: ws =>
    match w with
    | .json v =>
      match wires_to_json ws with
      | .error e => .error e
      | .ok rest => .ok (v :: rest)
    | .integral n true =>
      match wires_to_json ws with
      | .error e => .error e
      | .ok rest => .ok (.jint n :: rest)
    | .integral n false => .error (.unserializableWire (.integral n false))
    | .other _ => wires_to_json ws

/-- The `__name__`s of the classes enumerated by
`_DatasetOperatorMixin.supported_ops`
(`pennylane/data/attributes/operator/operator.py`), in source order.  The
source set contains the class objects themselves; the classes have pairwise
distinct names, so the model identifies a supported class with its name. -/
def supportedOpNames : List String :=
  [ "Tensor",
    "QubitCarry", "QubitSum",
    "QubitUnitary", "DiagonalQubitUnitary",
    "Hadamard", "PauliX", "PauliY", "PauliZ", "T", "S", "SX",
    "CNOT", "CZ", "CY", "CH", "SWAP", "ECR", "SISWAP", "CSWAP", "CCZ",
    "Toffoli", "WireCut",
    "Hermitian", "Projector",
    "ControlledPhaseShift", "CPhaseShift00", "CPhaseShift01", "CPhaseShift10",
    "CRX", "CRY", "CRZ", "CRot",
    "MultiRZ", "IsingXX", "IsingYY", "IsingZZ", "IsingXY", "PSWAP",
    "RX", "RY", "RZ", "PhaseShift", "Rot", "U1", "U2", "U3",
    "SingleExcitation", "SingleExcitationMinus", "SingleExcitationPlus",
    "DoubleExcitation", "DoubleExcitationMinus", "DoubleExcitationPlus",
    "OrbitalRotation",
    "SpecialUnitary",
    "BasisState", "QubitStateVector", "QubitDensityMatrix",
    "QutritUnitary",
    "TShift", "TClock", "TAdd", "TSWAP",
    "THermitian",
    "AmplitudeDamping", "GeneralizedAmplitudeDamping", "PhaseDamping",
    "DepolarizingChannel", "BitFlip", "ResetError", "PauliError",
    "PhaseFlip", "ThermalRelaxationError",
    "Rotation", "Squeezing", "Displacement", "Beamsplitter",
    "TwoModeSqueezing", "QuadraticPhase", "ControlledAddition",
    "ControlledPhase", "Kerr", "CrossKerr", "InterferometerUnitary",
    "CoherentState", "SqueezedState", "DisplacedSqueezedState",
    "ThermalState", "GaussianState", "FockState", "FockStateVector",
    "FockDensityMatrix", "CatState", "NumberOperator", "TensorN",
    "X", "P", "QuadOperator", "PolyXP", "FockStateProjector",
    "Identity" ]

/-- A numeric operator parameter (an entry of `op.data`).  The HDF5 layer
copies parameters verbatim in both directions, so their internal structure is
irrelevant; Lean equality models bit-for-bit equality. -/
abbrev Param := Int

/-- An in-memory `pennylane.operation.Operator` value, as far as the
serializer consults it: `leaf cls data wires` is an operator whose exact
class has `__name__ = cls`, with parameter list `op.data` and wire labels
`op.wires`; `tensor obs` is an operator of exact class `Tensor` with factors
`op.obs`.  A `leaf` never has class name `"Tensor"`: an operator whose exact
class is `Tensor` is represented by the `tensor` constructor
(well-formedness, enforced by `opOk` where a theorem needs it). -/
inductive Op where
  | leaf (cls : String) (data : List Param) (wires : List Wire)
  | tensor (obs : List Op)

/-- `type(op).__name__`. -/
def Op.className : Op → String
  | .leaf cls _ _ => cls
  | .tensor _ => "Tensor"

/-- An HDF5 node as produced/consumed by the operator serializer:
`arr` a dataset holding a parameter list, `empty` the `h5py.Empty("f")`
zero-parameter sentinel (its `.shape` is `None`), and `grp` a group holding
the string arrays `op_class_names` and `op_wire_labels` plus the `op_{i}`
children in index order.  An `op_wire_labels` entry is the JSON-decoded
label list, `none` standing for the literal string `"null"` written for
`Tensor` entries. -/
inductive HNode where
  | arr (ps : List Param)
  | empty
  | grp (names : List String) (wires : List (Option (List JVal)))
        (children : List HNode)

mutual

/-- The per-operator body of the loop of `_DatasetOperatorMixin._ops_to_hdf5`:
first the membership test `type(op) not in self.supported_ops()` (a
`TypeError` naming the class if it fails), then for a `Tensor` a recursive
sub-group and the `"null"` wire-label sentinel, and otherwise the parameter
dataset (`op.data`, or the `Empty` sentinel when there are no parameters)
and the `wires_to_json` encoding of the labels.  Returns the
`(op_class_names, op_wire_labels, op_{i})` entry for the operator. -/
def op_to_entry : Op → Except DsError (String × Option (List JVal) × HNode)
  | .leaf cls ps ws =>
    if cls ∈ supportedOpNames then
      match wires_to_json ws with
      | .error e => .error e
      | .ok jw => .ok (cls, some jw, if ps.isEmpty then .empty else .arr ps)
    else
      .error (.typeError
        ("Serialization of operator type " ++ cls ++ " is not supported."))
  | .tensor obs =>
    -- the membership test passes: `Tensor` is the first element of
    -- `supported_ops()` (`tensor_mem_supported` below)
    match ops_to_entries obs with
    | .error e => .error e
    | .ok (ns, wls, chs) => .ok ("Tensor", none, .grp ns wls chs)

/-- The loop of `_ops_to_hdf5` over a sequence of operators, accumulating the
three parallel lists it writes into the group.  The first failing operator
aborts the whole write with its exception, exactly as the Python loop
raises. -/
def ops_to_entries :
    List Op → Except DsError (List String × List (Option (List JVal)) × List HNode)
  | [] => .ok ([], [], [])
  | op :: rest =>
    match op_to_entry op with
    | .error e => .error e
    | .ok (n, wl, ch) =>
      match ops_to_entries rest with
      | .error e => .error e
      | .ok (ns, wls, chs) => .ok (n :: ns, wl :: wls, ch :: chs)

end

/-- `_DatasetOperatorMixin._ops_to_hdf5`: creates the group, runs the loop,
then stores `op_wire_labels` and `op_class_names`; the value returned is the
created group. -/
def ops_to_hdf5 (value : List Op) : Except DsError HNode :=
  match ops_to_entries value with
  | .error e => .error e
  | .ok (ns, wls, chs) => .ok (.grp ns wls chs)

/-- Rebuilding one non-`Tensor` operator entry of a stored group from its
JSON-decoded wire-label entry and its `op_{i}` child: `op_cls(*params,
wires=wire_labels)` when the child dataset has data (its `.shape` is not
`None`), `op_cls(wires=wire_labels)` for the `Empty` sentinel.  A `"null"`
wire entry or a sub-group child cannot be produced by the writer for a
non-`Tensor` entry; on such foreign data the source would fail in the
constructor call or the `.shape` access, modelled as a `TypeError`. -/
def des_leaf (name : String) (wl : Option (List JVal)) (ch : HNode) :
    Except DsError Op :=
  match wl with
  | some labels =>
    match ch with
    | .arr ps => .ok (.leaf name ps (labels.map Wire.json))
    | .empty => .ok (.leaf name [] (labels.map Wire.json))
    | .grp _ _ _ => .error (.typeError "expected a dataset")
  | none => .error (.typeError "wires are null")

mutual

/-- The body of the loop of `_DatasetOperatorMixin._hdf5_to_ops`, walking
`op_class_names`, `op_wire_labels` and the `op_{i}` children in lockstep
(the source indexes the three by the same `i`; walking them in lockstep is
equivalent: a missing entry errors here as the out-of-range access errors
there, and in both cases only after the class-name lookup for that index).
For each entry the source first resolves
`self._supported_ops_dict()[op_class_names[i]]` — a plain `dict` lookup, so
an unknown class name raises `KeyError` naming it — then either recurses
(`Tensor(*self._hdf5_to_ops(bind[op_key]))`) or rebuilds the operator via
`des_leaf`. -/
def des_entries :
    List String → List (Option (List JVal)) → List HNode → Except DsError (List Op)
  | [], _, _ => .ok []
  | name :: ns, wl :: wls, ch :: chs =>
    if name ∈ supportedOpNames then
      if name = "Tensor" then
        match hdf5_to_ops ch with
        | .error e => .error e
        | .ok subops =>
          match des_entries ns wls chs with
          | .error e => .error e
          | .ok rest => .ok (.tensor subops :: rest)
      else
        match des_leaf name wl ch with
        | .error e => .error e
        | .ok op =>
          match des_entries ns wls chs with
          | .error e => .error e
          | .ok rest => .ok (op :: rest)
    else
      .error (.keyError name)
  | name :: _, [], _ =>
    if name ∈ supportedOpNames then .error (.keyError "op index out of range")
    else .error (.keyError name)
  | name :: _, _ :: _, [] =>
    if name ∈ supportedOpNames then .error (.keyError "op index out of range")
    else .error (.keyError name)

/-- `_DatasetOperatorMixin._hdf5_to_ops` on a bound node: reads the
`op_class_names` and `op_wire_labels` arrays of the group and runs the
loop.  Reading those arrays from a non-group node fails. -/
def hdf5_to_ops : HNode → Except DsError (List Op)
  | .grp ns wls chs => des_entries ns wls chs
  | _ => .error (.typeError "expected a group")

end

/-- `DatasetOperator.value_to_hdf5`: serializes the single operator as the
one-element sequence `[value]`. -/
def value_to_hdf5 (value : Op) : Except DsError HNode :=
  ops_to_hdf5 [value]

/-- `DatasetOperator.hdf5_to_value`: deserializes the sequence and takes
element `[0]` (an `IndexError`, modelled as a `keyError`, on an empty
list). -/
def hdf5_to_value (bind : HNode) : Except DsError Op :=
  match hdf5_to_ops bind with
  | .error e => .error e
  | .ok [] => .error (.keyError "0")
  | .ok (op :: _) => .ok op

/-- A serializable wire label: one of the JSON types, or a `numbers.Integral`
type whose `int(...)` conversion is hash-preserving (written as the converted
built-in `int`).  The labels `wires_to_json` neither rejects nor drops. -/
def wireOk : Wire → Bool
  | .json _ => true
  | .integral _ hashStable => hashStable
  | .other _ => false

mutual

/-- Well-formedness of an in-memory operator for the round-trip theorem:
every reachable exact class is in the supported set, a `leaf` is never the
`Tensor` class (see `Op`), every wire label is serializable, and — since
`Tensor.__init__` absorbs the factors of any `Tensor` argument into a flat
`obs` list — the factors of a `tensor` are themselves leaves. -/
def opOk : Op → Bool
  | .leaf cls _ ws => decide (cls ∈ supportedOpNames) && decide (cls ≠ "Tensor")
      && ws.all wireOk
  | .tensor obs => obsOk obs

/-- `opOk` on a `Tensor`'s factor list: each factor is a well-formed leaf. -/
def obsOk : List Op → Bool
  | [] => true
  | .tensor _ :: _ => false
  | .leaf cls ps ws :: rest => opOk (.leaf cls ps ws) && obsOk rest

end

/-- The JSON value a serializable wire label is written as (the entry
`wires_to_json` appends for it). -/
def wireJ : Wire → JVal
  | .json v => v
  | .integral n _ => .jint n
  | .other _ => .jnull

/-- What reading back a serializable wire label yields: JSON-typed labels
come back unchanged; a non-JSON integral label was stored as `int(w)`, so it
comes back as the (Python-equal) built-in integer. -/
def normalizeWire (w : Wire) : Wire :=
  match w with
  | .integral n true => .json (.jint n)
  | w => w

mutual

/-- The operator the round trip reproduces: the same tree with each wire
label normalized by `normalizeWire`. -/
def normalizeOp : Op → Op
  | .leaf cls ps ws => .leaf cls ps (ws.map normalizeWire)
  | .tensor obs => .tensor (normalizeOps obs)

/-- `normalizeOp` on each element of a factor list. -/
def normalizeOps : List Op → List Op
  | [] => []
  | op :: rest => normalizeOp op :: normalizeOps rest

end

/-- Python `==` on wire labels, restricted to the label universe of the
model: JSON values compare structurally, and a non-JSON integral label
compares equal to the built-in integer it converts to (`int(w) == w` holds
for every `numbers.Integral`). -/
def wire_py_eq : Wire → Wire → Bool
  | .json (.jint m), .integral n _ => decide (m = n)
  | .integral n _, .json (.jint m) => decide (n = m)
  | .json a, .json b => decide (a = b)
  | .integral n _, .integral m _ => decide (n = m)
  | .other a, .other b => decide (a = b)
  | _, _ => false

/-- Pointwise `wire_py_eq` on label lists (equality of `Wires` objects). -/
def wires_py_eq : List Wire → List Wire → Bool
  | [], [] => true
  | w :: ws, w' :: ws' => wire_py_eq w w' && wires_py_eq ws ws'
  | _, _ => false

mutual

/-- Operator equality as the round-trip invariant states it: same exact
class, bit-for-bit equal parameters, wire labels equal under Python `==`,
and `Tensor` factors recursively equal. -/
def op_py_eq : Op → Op → Bool
  | .leaf c ps ws, .leaf c' ps' ws' =>
    decide (c = c') && decide (ps = ps') && wires_py_eq ws ws'
  | .tensor obs, .tensor obs' => ops_py_eq obs obs'
  | _, _ => false

/-- Pointwise `op_py_eq` on operator lists. -/
def ops_py_eq : List Op → List Op → Bool
  | [], [] => true
  | o :: os, o' :: os' => op_py_eq o o' && ops_py_eq os os'
  | _, _ => false

end

mutual

/-- `op_all_supported op` holds when every exact class reachable in the
operator tree (the operator itself and, recursively, the factors of its
`Tensor` nodes) is in the supported set. -/
def op_all_supported : Op → Bool
  | .leaf cls _ _ => decide (cls ∈ supportedOpNames)
  | .tensor obs => ops_all_supported obs

/-- `op_all_supported` over a factor list. -/
def ops_all_supported : List Op → Bool
  | [] => true
  | op :: rest => op_all_supported op && ops_all_supported rest

end

theorem tensor_mem_supported : "Tensor" ∈ supportedOpNames := by decide

/-- On an all-serializable label list, `wires_to_json` succeeds and returns
one JSON entry per wire, in order. -/
theorem wires_to_json_all_ok (ws : List Wire) (h : ws.all wireOk = true) :
    wires_to_json ws = .ok (ws.map wireJ) := by
  induction ws with
  | nil => rfl
  | cons w ws ih =>
    rw [List.all_cons, Bool.and_eq_true] at h
    cases w with
    | json v => simp [wires_to_json, ih h.2, wireJ]
    | integral n hs =>
      cases hs with
      | true => simp [wires_to_json, ih h.2, wireJ]
      | false => simp [wireOk] at h
    | other t => simp [wireOk] at h

theorem map_wireJ_json (ws : List Wire) (h : ws.all wireOk = true) :
    (ws.map wireJ).map Wire.json = ws.map normalizeWire := by
  induction ws with
  | nil => rfl
  | cons w ws ih =>
    rw [List.all_cons, Bool.and_eq_true] at h
    cases w with
    | json v => simp [wireJ, normalizeWire, ih h.2]
    | integral n hs =>
      cases hs with
      | true => simp [wireJ, normalizeWire, ih h.2]
      | false => simp [wireOk] at h
    | other t => simp [wireOk] at h

mutual

/-- Round trip of a single well-formed operator entry: serializing it
succeeds, and deserializing its entry at the head of any successfully
deserialized remainder prepends the normalized operator. -/
theorem round_op (op : Op) (h : opOk op = true) :
    ∃ n wl ch, op_to_entry op = .ok (n, wl, ch) ∧
      ∀ ns wls chs rest, des_entries ns wls chs = .ok rest →
        des_entries (n :: ns) (wl :: wls) (ch :: chs) =
          .ok (normalizeOp op :: rest) := by
  cases op with
  | leaf cls ps ws =>
    rw [opOk, Bool.and_eq_true, Bool.and_eq_true] at h
    obtain ⟨⟨h1, h2⟩, h3⟩ := h
    rw [decide_eq_true_eq] at h1
    rw [decide_eq_true_eq] at h2
    refine ⟨cls, some (ws.map wireJ), if ps.isEmpty then .empty else .arr ps,
      ?_, ?_⟩
    · simp [op_to_entry, h1, wires_to_json_all_ok ws h3]
    · intro ns wls chs rest hrest
      by_cases hps : ps.isEmpty
      · have hnil : ps = [] := by simpa [List.isEmpty_iff] using hps
        simp [des_entries, des_leaf, h1, h2, hps, hrest, normalizeOp, hnil,
          map_wireJ_json ws h3]
      · simp [des_entries, des_leaf, h1, h2, hps, hrest, normalizeOp,
          map_wireJ_json ws h3]
  | tensor obs =>
    rw [opOk] at h
    obtain ⟨ns, wls, chs, hsers, hdes⟩ := round_obs obs h
    refine ⟨"Tensor", none, .grp ns wls chs, ?_, ?_⟩
    · simp [op_to_entry, hsers]
    · intro ns' wls' chs' rest hrest
      simp [des_entries, tensor_mem_supported, hdf5_to_ops, hdes, hrest,
        normalizeOp]

/-- Round trip of a well-formed factor list: the write loop succeeds and the
read loop on the three written lists reproduces the normalized operators. -/
theorem round_obs (ops : List Op) (h : obsOk ops = true) :
    ∃ ns wls chs, ops_to_entries ops = .ok (ns, wls, chs) ∧
      des_entries ns wls chs = .ok (normalizeOps ops) := by
  cases ops with
  | nil => exact ⟨[], [], [], rfl, rfl⟩
  | cons op rest =>
    cases op with
    | tensor obs => rw [obsOk] at h; exact absurd h (by simp)
    | leaf cls ps ws =>
      rw [obsOk, Bool.and_eq_true] at h
      obtain ⟨n, wl, ch, hser, hcons⟩ := round_op _ h.1
      obtain ⟨ns, wls, chs, hsers, hdes⟩ := round_obs rest h.2
      refine ⟨n :: ns, wl :: wls, ch :: chs, ?_, ?_⟩
      · simp [ops_to_entries, hser, hsers]
      · simpa [normalizeOps] using hcons ns wls chs _ hdes

end

mutual

/-- Under `opOk`, normalization only replaces integral labels with their
Python-equal built-in integers, so the normalized operator is `==`-equal to
the original (same class, same parameters, `==`-equal wires, recursively
equal factors). -/
theorem py_eq_op (op : Op) (h : opOk op = true) :
    op_py_eq (normalizeOp op) op = true := by
  cases op with
  | leaf cls ps ws =>
    rw [opOk, Bool.and_eq_true, Bool.and_eq_true] at h
    obtain ⟨⟨-, -⟩, h3⟩ := h
    rw [normalizeOp, op_py_eq, Bool.and_eq_true, Bool.and_eq_true]
    refine ⟨⟨by simp, by simp⟩, ?_⟩
    induction ws with
    | nil => rfl
    | cons w ws ih =>
      rw [List.all_cons, Bool.and_eq_true] at h3
      cases w with
      | json v => simp [normalizeWire, wires_py_eq, wire_py_eq, ih h3.2]
      | integral n hs =>
        cases hs with
        | true => simp [normalizeWire, wires_py_eq, wire_py_eq, ih h3.2]
        | false => simp [wireOk] at h3
      | other t => simp [wireOk] at h3
  | tensor obs =>
    rw [opOk] at h
    rw [normalizeOp, op_py_eq]
    exact py_eq_obs obs h

/-- `py_eq_op` over a factor list. -/
theorem py_eq_obs (ops : List Op) (h : obsOk ops = true) :
    ops_py_eq (normalizeOps ops) ops = true := by
  cases ops with
  | nil => rfl
  | cons op rest =>
    cases op with
    | tensor obs => rw [obsOk] at h; exact absurd h (by simp)
    | leaf cls ps ws =>
      rw [obsOk, Bool.and_eq_true] at h
      rw [normalizeOps, ops_py_eq, Bool.and_eq_true]
      exact ⟨py_eq_op _ h.1, py_eq_obs rest h.2⟩

end

theorem normalize_className (op : Op) :
    (normalizeOp op).className = op.className := by
  cases op <;> rfl

/-- An operator whose exact class is outside the supported set fails the
membership test, whatever its parameters and wires. -/
theorem op_to_entry_unsupported (op : Op) (h : op.className ∉ supportedOpNames) :
    op_to_entry op = .error (.typeError
      ("Serialization of operator type " ++ op.className ++
        " is not supported.")) := by
  cases op with
  | leaf cls ps ws => simp [Op.className] at h; simp [op_to_entry, h, Op.className]
  | tensor obs => exact absurd tensor_mem_supported h

/-- The write loop raises on the first unsupported operator it reaches:
anything already written for the preceding operators does not mask the
`TypeError`. -/
theorem ops_to_entries_append_error (pre : List Op) (op : Op) (post : List Op)
    (r : List String × List (Option (List JVal)) × List HNode)
    (hpre : ops_to_entries pre = .ok r) (hop : op.className ∉ supportedOpNames) :
    ops_to_entries (pre ++ op :: post) = .error (.typeError
      ("Serialization of operator type " ++ op.className ++
        " is not supported.")) := by
  induction pre generalizing r with
  | nil => simp [ops_to_entries, op_to_entry_unsupported op hop]
  | cons p pre' ih =>
    rw [ops_to_entries] at hpre
    cases h1 : op_to_entry p with
    | error e => rw [h1] at hpre; exact absurd hpre (by simp)
    | ok e =>
      obtain ⟨n, wl, ch⟩ := e
      rw [h1] at hpre
      cases h2 : ops_to_entries pre' with
      | error e => rw [h2] at hpre; exact absurd hpre (by simp)
      | ok r' =>
        simp only [List.cons_append, ops_to_entries, h1, List.append_eq,
          ih r' h2]

mutual

/-- A successfully written operator entry has all its reachable exact
classes in the supported set. -/
theorem ser_ok_all_supported_op (op : Op)
    (e : String × Option (List JVal) × HNode) (h : op_to_entry op = .ok e) :
    op_all_supported op = true := by
  cases op with
  | leaf cls ps ws =>
    rw [op_to_entry] at h
    by_cases hmem : cls ∈ supportedOpNames
    · simp [op_all_supported, hmem]
    · simp [hmem] at h
  | tensor obs =>
    rw [op_to_entry] at h
    cases h2 : ops_to_entries obs with
    | error e2 => rw [h2] at h; exact absurd h (by simp)
    | ok r =>
      obtain ⟨ns, wls, chs⟩ := r
      rw [op_all_supported]
      exact ser_ok_all_supported_obs obs _ h2

/-- `ser_ok_all_supported_op` over the written sequence. -/
theorem ser_ok_all_supported_obs (ops : List Op)
    (r : List String × List (Option (List JVal)) × List HNode)
    (h : ops_to_entries ops = .ok r) : ops_all_supported ops = true := by
  cases ops with
  | nil => rfl
  | cons op rest =>
    rw [ops_to_entries] at h
    cases h1 : op_to_entry op with
    | error e => rw [h1] at h; exact absurd h (by simp)
    | ok e =>
      rw [h1] at h
      cases h2 : ops_to_entries rest with
      | error e2 => rw [h2] at h; exact absurd h (by simp)
      | ok r' =>
        rw [ops_all_supported, Bool.and_eq_true]
        exact ⟨ser_ok_all_supported_op op e h1, ser_ok_all_supported_obs rest r' h2⟩

end

/-- C1 (amended): for every operator whose reachable exact classes are all
in the supported set, whose `Tensor` nodes have leaf factors (as
`Tensor.__init__` guarantees for in-memory values), and whose wire labels
are all serializable (a JSON type, or an integral type whose `int(...)`
conversion preserves the hash), `DatasetOperator.value_to_hdf5` succeeds and
`DatasetOperator.hdf5_to_value` on the produced group returns an operator of
the same exact class, with bit-for-bit equal parameters and Python-`==`
equal wire labels (a non-JSON integral label comes back as the equal
built-in `int`); `Tensor` products are rebuilt recursively from their
sub-operators. -/
theorem c1_round_trip_amended (op : Op) (h : opOk op = true) :
    ∃ g, value_to_hdf5 op = .ok g ∧ hdf5_to_value g = .ok (normalizeOp op) ∧
      (normalizeOp op).className = op.className ∧
      op_py_eq (normalizeOp op) op = true := by
  obtain ⟨n, wl, ch, hser, hcons⟩ := round_op op h
  refine ⟨.grp [n] [wl] [ch], ?_, ?_, normalize_className op, py_eq_op op h⟩
  · simp [value_to_hdf5, ops_to_hdf5, ops_to_entries, hser]
  · have hdes := hcons [] [] [] [] rfl
    simp [hdf5_to_value, hdf5_to_ops, hdes]

/-- C1 witness: a tensor product `PauliX(0) @ PauliY(np.int64(1))` (the
second label a non-JSON integral with hash-stable conversion) round-trips to
the recursively rebuilt tensor with the integral label returned as the
built-in `1`. -/
theorem c1_round_trip_amended_witness :
    opOk (.tensor [.leaf "PauliX" [] [.json (.jint 0)],
      .leaf "PauliY" [] [.integral 1 true]]) = true ∧
    (∃ g, value_to_hdf5 (.tensor [.leaf "PauliX" [] [.json (.jint 0)],
        .leaf "PauliY" [] [.integral 1 true]]) = .ok g ∧
      hdf5_to_value g = .ok (normalizeOp (.tensor [.leaf "PauliX" [] [.json (.jint 0)],
        .leaf "PauliY" [] [.integral 1 true]])) ∧
      (normalizeOp (.tensor [.leaf "PauliX" [] [.json (.jint 0)],
        .leaf "PauliY" [] [.integral 1 true]])).className =
        (Op.tensor [.leaf "PauliX" [] [.json (.jint 0)],
          .leaf "PauliY" [] [.integral 1 true]]).className ∧
      op_py_eq (normalizeOp (.tensor [.leaf "PauliX" [] [.json (.jint 0)],
        .leaf "PauliY" [] [.integral 1 true]]))
        (.tensor [.leaf "PauliX" [] [.json (.jint 0)],
          .leaf "PauliY" [] [.integral 1 true]]) = true) :=
  ⟨by decide, c1_round_trip_amended _ (by decide)⟩

/-- C1 counterexample: the claim as stated fails on `PauliX` with a single
wire label of a non-integral, non-JSON type.  Writing succeeds, but the
label is silently dropped from the JSON list, so reading back yields
`PauliX` with no wires — not an operator with wire labels equal to the
original's. -/
theorem c1_counterexample :
    value_to_hdf5 (.leaf "PauliX" [] [.other "CustomWireLabel"]) =
      .ok (.grp ["PauliX"] [some []] [.empty]) ∧
    hdf5_to_value (.grp ["PauliX"] [some []] [.empty]) =
      .ok (.leaf "PauliX" [] []) ∧
    (Op.leaf "PauliX" [] [] ≠ .leaf "PauliX" [] [.other "CustomWireLabel"]) ∧
    wires_py_eq [] [.other "CustomWireLabel"] = false :=
  ⟨rfl, rfl, by simp, rfl⟩

/-- C2: the code bug.  `wires_to_json` silently omits a wire label whose
type is neither a JSON type nor `numbers.Integral` — the loop body has no
branch for it — so writing `PauliX` with such a label succeeds with an empty
JSON wire list instead of raising `UnserializableWireError`, and the JSON
list has fewer entries than the input has wires. -/
theorem c2_wire_silently_dropped :
    wires_to_json [.other "CustomWireLabel"] = .ok [] ∧
    [Wire.other "CustomWireLabel"].length = 1 ∧
    value_to_hdf5 (.leaf "PauliX" [] [.other "CustomWireLabel"]) =
      .ok (.grp ["PauliX"] [some []] [.empty]) :=
  ⟨rfl, rfl, rfl⟩

/-- C4 (amended): a stored operator group whose first recorded class name
does not resolve in `_supported_ops_dict()` makes the read path fail with a
`KeyError` carrying that class name (the unguarded `dict` lookup), not a
`TypeError` or `ValueError`. -/
theorem c4_unresolvable_class_keyerror (name : String) (ns : List String)
    (wls : List (Option (List JVal))) (chs : List HNode)
    (h : name ∉ supportedOpNames) :
    hdf5_to_ops (.grp (name :: ns) wls chs) = .error (.keyError name) ∧
    hdf5_to_value (.grp (name :: ns) wls chs) = .error (.keyError name) := by
  have h1 : des_entries (name :: ns) wls chs = .error (.keyError name) := by
    cases wls with
    | nil => simp [des_entries, h]
    | cons wl wls' =>
      cases chs with
      | nil => simp [des_entries, h]
      | cons ch chs' => simp [des_entries, h]
  exact ⟨by simp [hdf5_to_ops, h1], by simp [hdf5_to_value, hdf5_to_ops, h1]⟩

/-- C4 witness: reading a group recorded for the vanished class
`UnresolvableOp` fails with `KeyError("UnresolvableOp")`. -/
theorem c4_unresolvable_class_keyerror_witness :
    hdf5_to_ops (.grp ["UnresolvableOp"] [some []] [.empty]) =
      .error (.keyError "UnresolvableOp") ∧
    hdf5_to_value (.grp ["UnresolvableOp"] [some []] [.empty]) =
      .error (.keyError "UnresolvableOp") :=
  c4_unresolvable_class_keyerror "UnresolvableOp" [] [some []] [.empty] (by decide)

/-- C4 counterexample: the error the read path raises for an unresolvable
class name is a `KeyError` — not a `TypeError` or `ValueError` as the claim
states. -/
theorem c4_counterexample :
    hdf5_to_value (.grp ["VanishedOperatorClass"] [some []] [.empty]) =
      .error (.keyError "VanishedOperatorClass") ∧
    DsError.is_type_or_value_error (.keyError "VanishedOperatorClass") = false :=
  ⟨rfl, rfl⟩

/-- C5: if any element of the written sequence has an exact class outside
the supported set then, provided the preceding elements serialize, the write
fails with a `TypeError` naming that operator's class; and conversely a
successful write implies every reachable exact class was in the supported
set — no unsupported class is ever serialized. -/
theorem c5_unsupported_class :
    (∀ (pre : List Op) (op : Op) (post : List Op)
        (r : List String × List (Option (List JVal)) × List HNode),
        ops_to_entries pre = .ok r → op.className ∉ supportedOpNames →
        ops_to_hdf5 (pre ++ op :: post) = .error (.typeError
          ("Serialization of operator type " ++ op.className ++
            " is not supported."))) ∧
    (∀ (value : List Op) (g : HNode), ops_to_hdf5 value = .ok g →
        ops_all_supported value = true) := by
  constructor
  · intro pre op post r hpre hop
    simp [ops_to_hdf5, ops_to_entries_append_error pre op post r hpre hop]
  · intro value g h
    rw [ops_to_hdf5] at h
    cases h1 : ops_to_entries value with
    | error e => rw [h1] at h; exact absurd h (by simp)
    | ok r =>
      obtain ⟨ns, wls, chs⟩ := r
      exact ser_ok_all_supported_obs value _ h1

/-- C5 witness: writing `[PauliX(0), MyCustomGate()]` fails with the
`TypeError` naming `MyCustomGate`, and the successful write of `[PauliX(0)]`
has all classes supported. -/
theorem c5_unsupported_class_witness :
    ops_to_hdf5 [.leaf "PauliX" [] [.json (.jint 0)], .leaf "MyCustomGate" [] []] =
      .error (.typeError ("Serialization of operator type " ++
        (Op.leaf "MyCustomGate" [] []).className ++ " is not supported.")) ∧
    ops_all_supported [.leaf "PauliX" [] [.json (.jint 0)]] = true :=
  ⟨c5_unsupported_class.1 [.leaf "PauliX" [] [.json (.jint 0)]]
      (.leaf "MyCustomGate" [] []) [] ([ "PauliX" ], [some [.jint 0]], [.empty])
      rfl (by decide),
    c5_unsupported_class.2 [.leaf "PauliX" [] [.json (.jint 0)]]
      (.grp ["PauliX"] [some [.jint 0]] [.empty]) rfl⟩

/-- C8: acceptance is decided by the exact type.  Whenever the exact class
name of a leaf operator is outside the supported set — in particular for an
instance of a strict subclass of a supported class, whose exact class is its
own — the write raises the `TypeError` naming that exact class; no ancestor
class is ever consulted (the serializer reads nothing but
`type(op)`). -/
theorem c8_exact_type_rejection (cls : String) (ps : List Param)
    (ws : List Wire) (h : cls ∉ supportedOpNames) :
    value_to_hdf5 (.leaf cls ps ws) = .error (.typeError
      ("Serialization of operator type " ++ cls ++ " is not supported.")) := by
  have h1 := op_to_entry_unsupported (.leaf cls ps ws) (by simpa [Op.className] using h)
  rw [Op.className] at h1
  simp [value_to_hdf5, ops_to_hdf5, ops_to_entries, h1]

/-- C8 witness: `MyPauliX` stands for a strict subclass of the supported
`PauliX`; the ancestor is in the supported set, yet the subclass instance is
rejected with the `TypeError` naming `MyPauliX`. -/
theorem c8_exact_type_rejection_witness :
    "PauliX" ∈ supportedOpNames ∧ "MyPauliX" ∉ supportedOpNames ∧
    value_to_hdf5 (.leaf "MyPauliX" [] [.json (.jint 0)]) = .error (.typeError
      ("Serialization of operator type " ++ "MyPauliX" ++ " is not supported.")) :=
  ⟨by decide, by decide,
    c8_exact_type_rejection "MyPauliX" [] [.json (.jint 0)] (by decide)⟩

/-! ### The attribute-type mapper (`pennylane/data/base/mapper.py`)

The bound HDF5 group and the `_cache` dict are modelled as association
lists; Python `dict.pop(k, None)` / `dict.__setitem__` become `aerase` /
`ainsert`. -/

/-- Association-list lookup (Python `dict.get` / `group[key]`). -/
def alookup {α : Type} : List (String × α) → String → Option α
  | [], _ => none
  | (k, v) :: rest, key => if k = key then some v else alookup rest key

/-- Association-list insert-or-replace (Python `dict.__setitem__`, and a
group write that overwrites the node at `key`). -/
def ainsert {α : Type} (l : List (String × α)) (key : String) (v : α) :
    List (String × α) :=
  match l with
  | [] => [(key, v)]
  | (k, w) :: rest =>
    if k = key then (key, v) :: rest else (k, w) :: ainsert rest key v

/-- Association-list removal (Python `dict.pop(key, None)` / `del
group[key]`; removing an absent key removes nothing). -/
def aerase {α : Type} : List (String × α) → String → List (String × α)
  | [], _ => []
  | (k, v) :: rest, key =>
    if k = key then aerase rest key else (k, v) :: aerase rest key

/-- A child node of the bound group, as far as the mapper consults it: the
`type_id` recorded in its info attributes (absent on foreign nodes), and
opaque content distinguishing nodes. -/
structure Node where
  type_id : Option String
  payload : Nat
deriving DecidableEq, Repr

/-- Modelled from the spec: the process-wide registry's `type_id` table.
The ids of the attribute types under `src` ("array", "none", "operator",
"operator_list", "qchem_hamiltonian", "string") plus the ids the spec and
tests name for types registered in modules not under `src`. -/
def registeredTypeIds : List String :=
  ["array", "none", "operator", "operator_list", "qchem_hamiltonian",
   "string", "scalar", "list", "dict", "sparse_array", "wires", "molecule"]

/-- Modelled from the spec: `get_attribute_type`
(`pennylane/data/base/attribute.py`, not under `src`) reads the node's
recorded `type_id` and resolves it through the registry; a node without a
`type_id` or with an id absent from the registry is a fatal lookup
failure. -/
def get_attribute_type (zobj : Node) : Except DsError String :=
  match zobj.type_id with
  | none => .error (.keyError "type_id")
  | some tid =>
    if tid ∈ registeredTypeIds then .ok tid else .error (.unknownType tid)

/-- The bound `AttributeType` wrapper `attr_type(bind=zobj)` that
`__getitem__` constructs and caches: the resolved attribute type (identified
by its `type_id`) bound to the child node. -/
structure AttrInst where
  attr_type : String
  node : Node
deriving DecidableEq, Repr

/-- `AttributeTypeMapper` state: the bound group, the `_cache` dict, and an
instrumentation counter of how many times a child's `type_id` was resolved
(bumped exactly when `__getitem__` misses the cache and reaches
`get_attribute_type`; no other operation resolves). -/
structure Mapper where
  bind : List (String × Node)
  cache : List (String × AttrInst)
  resolutions : Nat
deriving DecidableEq, Repr

/-- `AttributeTypeMapper.__getitem__`: a cache hit returns the cached
instance unchanged; otherwise the child node is fetched (`KeyError` if
absent), its `type_id` resolved, and the fresh wrapper cached.  Returns the
result together with the successor state. -/
def Mapper.getitem (m : Mapper) (key : String) :
    Except DsError AttrInst × Mapper :=
  match alookup m.cache key with
  | some attr => (.ok attr, m)
  | none =>
    match alookup m.bind key with
    | none => (.error (.keyError key), m)
    | some zobj =>
      match get_attribute_type zobj with
      | .error e => (.error e, { m with resolutions := m.resolutions + 1 })
      | .ok t =>
        (.ok ⟨t, zobj⟩,
          ⟨m.bind, ainsert m.cache key ⟨t, zobj⟩, m.resolutions + 1⟩)

/-- `AttributeTypeMapper.set_item`, success path: in all three source
branches the backing node at `key` is (re)written and then
`self._cache.pop(key, None)` runs before returning.  `zobj` is the node the
`AttributeType` construction (or re-parenting) wrote, its info already
stamped.  A dispatch or `require_type` failure raises before anything is
written — the identity transition on the state, which trivially preserves
the invariants below. -/
def Mapper.set_item (m : Mapper) (key : String) (zobj : Node) : Mapper :=
  ⟨ainsert m.bind key zobj, aerase m.cache key, m.resolutions⟩

/-- `AttributeTypeMapper.move`: `self.bind.move(src, dest)` followed by
`self._cache.pop(src, None)`.  Modelled from the spec's backing-store
surface: both backing stores (h5py and zarr) raise when `src` is absent
(`KeyError`) or `dest` already exists (`ValueError`); the exception
propagates before the cache pop, leaving the state unchanged.  On success
the node is relinked and only `src` is evicted from the cache. -/
def Mapper.move (m : Mapper) (src dest : String) : Mapper :=
  match alookup m.bind src with
  | none => m
  | some n =>
    match alookup m.bind dest with
    | some _ => m
    | none =>
      ⟨ainsert (aerase m.bind src) dest n, aerase m.cache src, m.resolutions⟩

/-- `AttributeTypeMapper.__delitem__`: `self._cache.pop(key, None)` and then
`del self.bind[key]` (deleting an absent key raises after the pop; `aerase`
then removes nothing from the store). -/
def Mapper.delitem (m : Mapper) (key : String) : Mapper :=
  ⟨aerase m.bind key, aerase m.cache key, m.resolutions⟩

/-- One mapper operation, for quantifying over call sequences. -/
inductive MOp where
  | get (key : String)
  | set (key : String) (zobj : Node)
  | move (src dest : String)
  | del (key : String)
deriving DecidableEq, Repr

/-- The state transition of one mapper operation. -/
def step (m : Mapper) : MOp → Mapper
  | .get key => (m.getitem key).2
  | .set key zobj => m.set_item key zobj
  | .move src dest => m.move src dest
  | .del key => m.delitem key

/-- Run a sequence of mapper operations. -/
def run_steps (m : Mapper) : List MOp → Mapper
  | [] => m
  | op :: rest => run_steps (step m op) rest

/-- A mapper state arising from a freshly constructed
`AttributeTypeMapper(bind)` — whose `_cache` starts empty — by any sequence
of operations. -/
inductive Reachable : Mapper → Prop where
  | init (bind : List (String × Node)) : Reachable ⟨bind, [], 0⟩
  | next (m : Mapper) (op : MOp) : Reachable m → Reachable (step m op)

/-- Cache/store coherence: every cached wrapper is bound to the node
currently stored under its key, with its type resolved from that node. -/
def Coherent (m : Mapper) : Prop :=
  ∀ key attr, alookup m.cache key = some attr →
    alookup m.bind key = some attr.node ∧
      get_attribute_type attr.node = .ok attr.attr_type

/-- The result `__getitem__(key)` must produce if it consulted only the
backing store: the wrapper of the currently stored node, or the store's own
error. -/
def expected_attr (bind : List (String × Node)) (key : String) :
    Except DsError AttrInst :=
  match alookup bind key with
  | none => .error (.keyError key)
  | some zobj =>
    match get_attribute_type zobj with
    | .error e => .error e
    | .ok t => .ok ⟨t, zobj⟩

/-- `__getitem__(key)` on `m` reflects the backing store's current contents
(never a stale cached wrapper). -/
def reflects (m : Mapper) (key : String) : Prop :=
  (m.getitem key).1 = expected_attr m.bind key

/-- Whether an operation structurally changes `key` (for `move`: either
endpoint). -/
def mutates_key (op : MOp) (key : String) : Bool :=
  match op with
  | .get _ => false
  | .set k _ => decide (k = key)
  | .move src dest => decide (src = key) || decide (dest = key)
  | .del k => decide (k = key)

theorem alookup_ainsert_self {α : Type} (l : List (String × α)) (key : String)
    (v : α) : alookup (ainsert l key v) key = some v := by
  induction l with
  | nil => simp [ainsert, alookup]
  | cons p rest ih =>
    obtain ⟨k, w⟩ := p
    by_cases h : k = key
    · simp [ainsert, alookup, h]
    · simp [ainsert, alookup, h, ih]

theorem alookup_ainsert_ne {α : Type} (l : List (String × α)) (key k : String)
    (v : α) (h : k ≠ key) : alookup (ainsert l key v) k = alookup l k := by
  induction l with
  | nil => simp [ainsert, alookup, Ne.symm h]
  | cons p rest ih =>
    obtain ⟨k', w⟩ := p
    by_cases h1 : k' = key
    · subst h1
      simp [ainsert, alookup, Ne.symm h]
    · simp only [ainsert, if_neg h1, alookup, ih]

theorem alookup_aerase_self {α : Type} (l : List (String × α)) (key : String) :
    alookup (aerase l key) key = none := by
  induction l with
  | nil => simp [aerase, alookup]
  | cons p rest ih =>
    obtain ⟨k, w⟩ := p
    by_cases h : k = key <;> simp [aerase, alookup, h, ih]

theorem alookup_aerase_ne {α : Type} (l : List (String × α)) (key k : String)
    (h : k ≠ key) : alookup (aerase l key) k = alookup l k := by
  induction l with
  | nil => simp [aerase]
  | cons p rest ih =>
    obtain ⟨k', w⟩ := p
    by_cases h1 : k' = key
    · subst h1
      simp [aerase, alookup, Ne.symm h, ih]
    · simp only [aerase, if_neg h1, alookup, ih]

theorem coherent_getitem (m : Mapper) (key : String) (h : Coherent m) :
    Coherent (m.getitem key).2 := by
  cases h1 : alookup m.cache key with
  | some attr => simpa [Mapper.getitem, h1] using h
  | none =>
    cases h2 : alookup m.bind key with
    | none => simpa [Mapper.getitem, h1, h2] using h
    | some zobj =>
      cases h3 : get_attribute_type zobj with
      | error e =>
        have he : (m.getitem key).2 = { m with resolutions := m.resolutions + 1 } := by
          simp [Mapper.getitem, h1, h2, h3]
        rw [he]
        intro k a hk
        exact h k a hk
      | ok t =>
        have he : (m.getitem key).2 =
            ⟨m.bind, ainsert m.cache key ⟨t, zobj⟩, m.resolutions + 1⟩ := by
          simp [Mapper.getitem, h1, h2, h3]
        rw [he]
        intro k a hk
        by_cases hkey : k = key
        · subst hkey
          rw [alookup_ainsert_self] at hk
          cases hk
          exact ⟨h2, h3⟩
        · rw [alookup_ainsert_ne _ _ _ _ hkey] at hk
          exact h k a hk

theorem coherent_set_item (m : Mapper) (key : String) (zobj : Node)
    (h : Coherent m) : Coherent (m.set_item key zobj) := by
  intro k a hk
  rw [Mapper.set_item] at hk ⊢
  by_cases hkey : k = key
  · subst hkey
    rw [alookup_aerase_self] at hk
    exact absurd hk (by simp)
  · rw [alookup_aerase_ne _ _ _ hkey] at hk
    obtain ⟨hb, hg⟩ := h k a hk
    exact ⟨by rw [alookup_ainsert_ne _ _ _ _ hkey]; exact hb, hg⟩

theorem coherent_move (m : Mapper) (src dest : String) (h : Coherent m) :
    Coherent (m.move src dest) := by
  cases h1 : alookup m.bind src with
  | none => simpa [Mapper.move, h1] using h
  | some n =>
    cases h2 : alookup m.bind dest with
    | some n' => simpa [Mapper.move, h1, h2] using h
    | none =>
      have he : m.move src dest =
          ⟨ainsert (aerase m.bind src) dest n, aerase m.cache src,
            m.resolutions⟩ := by
        simp [Mapper.move, h1, h2]
      rw [he]
      intro k a hk
      by_cases hsrc : k = src
      · subst hsrc
        rw [alookup_aerase_self] at hk
        exact absurd hk (by simp)
      · rw [alookup_aerase_ne _ _ _ hsrc] at hk
        obtain ⟨hb, hg⟩ := h k a hk
        by_cases hdest : k = dest
        · subst hdest
          rw [h2] at hb
          exact absurd hb (by simp)
        · refine ⟨?_, hg⟩
          rw [alookup_ainsert_ne _ _ _ _ hdest, alookup_aerase_ne _ _ _ hsrc]
          exact hb

theorem coherent_delitem (m : Mapper) (key : String) (h : Coherent m) :
    Coherent (m.delitem key) := by
  intro k a hk
  rw [Mapper.delitem] at hk ⊢
  by_cases hkey : k = key
  · subst hkey
    rw [alookup_aerase_self] at hk
    exact absurd hk (by simp)
  · rw [alookup_aerase_ne _ _ _ hkey] at hk
    obtain ⟨hb, hg⟩ := h k a hk
    exact ⟨by rw [alookup_aerase_ne _ _ _ hkey]; exact hb, hg⟩

theorem coherent_step (m : Mapper) (op : MOp) (h : Coherent m) :
    Coherent (step m op) := by
  cases op with
  | get key => exact coherent_getitem m key h
  | set key zobj => exact coherent_set_item m key zobj h
  | move src dest => exact coherent_move m src dest h
  | del key => exact coherent_delitem m key h

/-- The coherence invariant holds in every state a mapper can reach from
construction (where the cache is empty). -/
theorem reachable_coherent (m : Mapper) (h : Reachable m) : Coherent m := by
  induction h with
  | init bind => intro k a hk; exact absurd hk (by simp [alookup])
  | next m' op _ ih => exact coherent_step m' op ih

/-- In a coherent state, `__getitem__` already reflects the backing store on
every key: a cache hit returns the wrapper of the currently stored node. -/
theorem coherent_reflects (m : Mapper) (h : Coherent m) (key : String) :
    reflects m key := by
  rw [reflects]
  cases h1 : alookup m.cache key with
  | some attr =>
    obtain ⟨hb, hg⟩ := h key attr h1
    simp [Mapper.getitem, h1, expected_attr, hb, hg]
  | none =>
    cases h2 : alookup m.bind key with
    | none => simp [Mapper.getitem, h1, h2, expected_attr]
    | some zobj =>
      cases h3 : get_attribute_type zobj with
      | error e => simp [Mapper.getitem, h1, h2, h3, expected_attr]
      | ok t => simp [Mapper.getitem, h1, h2, h3, expected_attr]

/-- C3: in every reachable mapper state, each mutating operation —
`set_item(key, ...)`, `__delitem__(key)`, `move(src, dest)` — leaves the
cache entry for every key it structurally changes evicted or absent, so an
immediately following `__getitem__` on that key (for `move`: on both `src`
and `dest`) reflects the backing store's current contents and never returns
a stale cached wrapper. -/
theorem c3_cache_coherence (m : Mapper) (h : Reachable m) :
    (∀ key zobj, reflects (m.set_item key zobj) key) ∧
    (∀ key, reflects (m.delitem key) key) ∧
    (∀ src dest, reflects (m.move src dest) src ∧
      reflects (m.move src dest) dest) := by
  have hc := reachable_coherent m h
  refine ⟨fun key zobj => ?_, fun key => ?_, fun src dest => ⟨?_, ?_⟩⟩
  · exact coherent_reflects _ (coherent_set_item m key zobj hc) key
  · exact coherent_reflects _ (coherent_delitem m key hc) key
  · exact coherent_reflects _ (coherent_move m src dest hc) src
  · exact coherent_reflects _ (coherent_move m src dest hc) dest

/-- C3 witness: on a freshly bound mapper over a store holding node `"a"`,
an overwrite of `"a"`, a delete of `"a"`, and a move of `"a"` to `"b"` each
leave the touched keys reflecting the store. -/
theorem c3_cache_coherence_witness :
    reflects (Mapper.set_item ⟨[("a", ⟨some "string", 0⟩)], [], 0⟩ "a"
      ⟨some "none", 1⟩) "a" ∧
    reflects (Mapper.delitem ⟨[("a", ⟨some "string", 0⟩)], [], 0⟩ "a") "a" ∧
    reflects (Mapper.move ⟨[("a", ⟨some "string", 0⟩)], [], 0⟩ "a" "b") "a" ∧
    reflects (Mapper.move ⟨[("a", ⟨some "string", 0⟩)], [], 0⟩ "a" "b") "b" :=
  ⟨(c3_cache_coherence _ (Reachable.init _)).1 "a" ⟨some "none", 1⟩,
    (c3_cache_coherence _ (Reachable.init _)).2.1 "a",
    ((c3_cache_coherence _ (Reachable.init _)).2.2 "a" "b").1,
    ((c3_cache_coherence _ (Reachable.init _)).2.2 "a" "b").2⟩

/-- A single operation that does not structurally change `key` preserves the
cached wrapper at `key`. -/
theorem step_cache_preserved (m : Mapper) (op : MOp) (key : String)
    (attr : AttrInst) (hop : mutates_key op key = false)
    (h : alookup m.cache key = some attr) :
    alookup (step m op).cache key = some attr := by
  cases op with
  | get k =>
    cases h1 : alookup m.cache k with
    | some a => simpa [step, Mapper.getitem, h1] using h
    | none =>
      cases h2 : alookup m.bind k with
      | none => simpa [step, Mapper.getitem, h1, h2] using h
      | some zobj =>
        cases h3 : get_attribute_type zobj with
        | error e => simpa [step, Mapper.getitem, h1, h2, h3] using h
        | ok t =>
          have hkey : k ≠ key := fun he => by rw [he, h] at h1; exact absurd h1 (by simp)
          simp only [step, Mapper.getitem, h1, h2, h3]
          rw [alookup_ainsert_ne _ _ _ _ (fun he => hkey he.symm)]
          exact h
  | set k zobj =>
    rw [mutates_key, decide_eq_false_iff_not] at hop
    simp only [step, Mapper.set_item]
    rw [alookup_aerase_ne _ _ _ (fun he => hop he.symm)]
    exact h
  | move src dest =>
    rw [mutates_key, Bool.or_eq_false_iff, decide_eq_false_iff_not,
      decide_eq_false_iff_not] at hop
    cases h1 : alookup m.bind src with
    | none => simpa [step, Mapper.move, h1] using h
    | some n =>
      cases h2 : alookup m.bind dest with
      | some n' => simpa [step, Mapper.move, h1, h2] using h
      | none =>
        simp only [step, Mapper.move, h1, h2]
        rw [alookup_aerase_ne _ _ _ (fun he => hop.1 he.symm)]
        exact h
  | del k =>
    rw [mutates_key, decide_eq_false_iff_not] at hop
    simp only [step, Mapper.delitem]
    rw [alookup_aerase_ne _ _ _ (fun he => hop he.symm)]
    exact h

theorem run_steps_cache_preserved (L : List MOp) (m : Mapper) (key : String)
    (attr : AttrInst) (hL : ∀ op ∈ L, mutates_key op key = false)
    (h : alookup m.cache key = some attr) :
    alookup (run_steps m L).cache key = some attr := by
  induction L generalizing m with
  | nil => exact h
  | cons op rest ih =>
    rw [run_steps]
    exact ih (step m op) (fun o ho => hL o (List.mem_cons_of_mem op ho))
      (step_cache_preserved m op key attr (hL op (List.mem_cons_self op rest)) h)

/-- C7: once `__getitem__(key)` has resolved and cached a wrapper, every
later `__getitem__(key)` — across any sequence of operations none of which
structurally changes `key` — returns the identical cached instance and
leaves the state (in particular the resolution counter) unchanged: the
`type_id` is resolved once per key. -/
theorem c7_single_resolution (m : Mapper) (key : String) (attr : AttrInst)
    (m₁ : Mapper) (h : m.getitem key = (.ok attr, m₁)) (L : List MOp)
    (hL : ∀ op ∈ L, mutates_key op key = false) :
    (run_steps m₁ L).getitem key = (.ok attr, run_steps m₁ L) := by
  have hcache : alookup m₁.cache key = some attr := by
    cases h1 : alookup m.cache key with
    | some a =>
      simp only [Mapper.getitem, h1, Prod.mk.injEq, Except.ok.injEq] at h
      rw [← h.2, h1, h.1]
    | none =>
      cases h2 : alookup m.bind key with
      | none => simp [Mapper.getitem, h1, h2] at h
      | some zobj =>
        cases h3 : get_attribute_type zobj with
        | error e => simp [Mapper.getitem, h1, h2, h3] at h
        | ok t =>
          simp only [Mapper.getitem, h1, h2, h3, Prod.mk.injEq,
            Except.ok.injEq] at h
          rw [← h.2, ← h.1]
          exact alookup_ainsert_self m.cache key ⟨t, zobj⟩
  have h2 := run_steps_cache_preserved L m₁ key attr hL hcache
  rw [Mapper.getitem, h2]

/-- C7 witness: after resolving `"a"` once (one resolution recorded), a
read of `"b"`, an overwrite of `"b"` and a delete of `"b"` intervene; the
following `__getitem__("a")` returns the identical cached wrapper and does
not resolve again. -/
theorem c7_single_resolution_witness :
    Mapper.getitem ⟨[("a", ⟨some "string", 0⟩), ("b", ⟨some "none", 1⟩)], [], 0⟩
        "a" =
      (.ok ⟨"string", ⟨some "string", 0⟩⟩,
        ⟨[("a", ⟨some "string", 0⟩), ("b", ⟨some "none", 1⟩)],
          [("a", ⟨"string", ⟨some "string", 0⟩⟩)], 1⟩) ∧
    (∀ op ∈ [MOp.get "b", MOp.set "b" ⟨some "array", 2⟩, MOp.del "b"],
      mutates_key op "a" = false) ∧
    (run_steps ⟨[("a", ⟨some "string", 0⟩), ("b", ⟨some "none", 1⟩)],
        [("a", ⟨"string", ⟨some "string", 0⟩⟩)], 1⟩
        [MOp.get "b", MOp.set "b" ⟨some "array", 2⟩, MOp.del "b"]).getitem "a" =
      (.ok ⟨"string", ⟨some "string", 0⟩⟩,
        run_steps ⟨[("a", ⟨some "string", 0⟩), ("b", ⟨some "none", 1⟩)],
          [("a", ⟨"string", ⟨some "string", 0⟩⟩)], 1⟩
          [MOp.get "b", MOp.set "b" ⟨some "array", 2⟩, MOp.del "b"]) :=
  ⟨rfl, by decide,
    c7_single_resolution
      ⟨[("a", ⟨some "string", 0⟩), ("b", ⟨some "none", 1⟩)], [], 0⟩ "a"
      ⟨"string", ⟨some "string", 0⟩⟩
      ⟨[("a", ⟨some "string", 0⟩), ("b", ⟨some "none", 1⟩)],
        [("a", ⟨"string", ⟨some "string", 0⟩⟩)], 1⟩ rfl
      [MOp.get "b", MOp.set "b" ⟨some "array", 2⟩, MOp.del "b"] (by decide)⟩

/-! ### `DatasetString` (`pennylane/data/attributes/string.py`) and
`DatasetNone` (`pennylane/data/attributes/none.py`) -/

/-- A node of the Zarr group `DatasetString.value_to_zarr` writes into: the
string array it creates, or any pre-existing node (array or group) of other
content. -/
inductive ZNode where
  | strArr (s : String)
  | foreign (tag : String)
deriving DecidableEq, Repr

/-- Modelled from the spec's backing-store surface: Zarr's
`Group.array(name, data, dtype)` refuses to create a node over an existing
name (a `ValueError`), and otherwise creates the array child under
`name`. -/
def zarr_array_str (bind_parent : List (String × ZNode)) (key : String)
    (data : String) : Except DsError (List (String × ZNode)) :=
  match alookup bind_parent key with
  | some _ => .error (.valueError ("path " ++ key ++ " contains an array or group"))
  | none => .ok (ainsert bind_parent key (.strArr data))

/-- `DatasetString.value_to_zarr`: `if key in bind_parent: del
bind_parent[key]`, then `bind_parent.array(name=key, data=value,
dtype=str)`. -/
def string_value_to_zarr (bind_parent : List (String × ZNode)) (key : String)
    (value : String) : Except DsError (List (String × ZNode)) :=
  let parent :=
    if (alookup bind_parent key).isSome then aerase bind_parent key
    else bind_parent
  zarr_array_str parent key value

theorem aerase_of_not_mem {α : Type} (l : List (String × α)) (key : String)
    (h : alookup l key = none) : aerase l key = l := by
  induction l with
  | nil => rfl
  | cons p rest ih =>
    obtain ⟨k, v⟩ := p
    rw [alookup] at h
    by_cases hk : k = key
    · rw [if_pos hk] at h
      exact absurd h (by simp)
    · rw [if_neg hk] at h
      rw [aerase, if_neg hk, ih h]

/-- C9: `DatasetString.value_to_zarr` is an overwrite, never an insert
failure: for every parent group, key and string, it deletes any existing
node first, the array creation then cannot hit an existing name, and
afterwards the parent holds exactly the new string array at `key`, all other
keys unchanged. -/
theorem c9_string_overwrite (bind_parent : List (String × ZNode))
    (key : String) (value : String) :
    string_value_to_zarr bind_parent key value =
      .ok (ainsert (aerase bind_parent key) key (.strArr value)) ∧
    alookup (ainsert (aerase bind_parent key) key (.strArr value)) key =
      some (.strArr value) ∧
    ∀ k, k ≠ key →
      alookup (ainsert (aerase bind_parent key) key (.strArr value)) k =
        alookup bind_parent k := by
  refine ⟨?_, alookup_ainsert_self _ _ _, fun k hk => ?_⟩
  · rw [string_value_to_zarr]
    by_cases h : (alookup bind_parent key).isSome
    · rw [if_pos h, zarr_array_str, alookup_aerase_self]
    · rw [if_neg h]
      have hnone : alookup bind_parent key = none := by
        cases hl : alookup bind_parent key with
        | none => rfl
        | some v => rw [hl] at h; exact absurd rfl h
      rw [zarr_array_str, hnone, aerase_of_not_mem bind_parent key hnone]
  · rw [alookup_ainsert_ne _ _ _ _ hk, alookup_aerase_ne _ _ _ hk]

/-- C9 witness: overwriting the existing string node `"x"` succeeds,
replaces it, and leaves the sibling `"y"` untouched. -/
theorem c9_string_overwrite_witness :
    string_value_to_zarr [("x", ZNode.strArr "old"), ("y", ZNode.foreign "grp")]
        "x" "new" =
      .ok (ainsert (aerase [("x", ZNode.strArr "old"),
        ("y", ZNode.foreign "grp")] "x") "x" (.strArr "new")) ∧
    alookup (ainsert (aerase [("x", ZNode.strArr "old"),
        ("y", ZNode.foreign "grp")] "x") "x" (.strArr "new")) "x" =
      some (.strArr "new") ∧
    alookup (ainsert (aerase [("x", ZNode.strArr "old"),
        ("y", ZNode.foreign "grp")] "x") "x" (.strArr "new")) "y" =
      alookup [("x", ZNode.strArr "old"), ("y", ZNode.foreign "grp")] "y" :=
  ⟨(c9_string_overwrite _ "x" "new").1, (c9_string_overwrite _ "x" "new").2.1,
    (c9_string_overwrite _ "x" "new").2.2 "y" (by decide)⟩

/-- `DatasetNone` (`pennylane/data/attributes/none.py`): the wrapper for a
stored `None`.  It either wraps the pending value (`bind = none` here) or is
bound to an existing store node. -/
structure DatasetNone where
  bind : Option Node

/-- `DatasetNone.__bool__`: returns `False`, unconditionally. -/
def DatasetNone.bool_ (_ : DatasetNone) : Bool := false

/-- `DatasetNone.hdf5_to_value`: returns `None` whatever the bound node
holds. -/
def DatasetNone.hdf5_to_value (_ : DatasetNone) : Option Unit := none

/-- C10: every `DatasetNone` instance is falsy — `bool()` of it is `False`
whether it wraps a pending value or is bound to a store node — even though
the wrapper itself is not `None`. -/
theorem c10_none_falsy (d : DatasetNone) : d.bool_ = false := rfl

/-! ### `QChemHamiltonian` (`pennylane/data/attributes/qchem.py`)

The Hamiltonian, its `terms()` decomposition and the
`pauli_word_to_string` / `string_to_pauli_word` helpers live in modules not
under `src`; they are modelled from the spec (§6, "Hamiltonian condensed
wire-format").  Wire labels are the strings of the spec's example; JSON
encode/decode is the identity on them, so the model stores decoded
labels. -/

/-- A single-wire Pauli factor. -/
inductive Pauli where
  | I
  | X
  | Y
  | Z
deriving DecidableEq, Repr

/-- Modelled from the spec: a Pauli-word operator, as the list of its
single-wire factors in order.  Two words are equal as operators iff they
apply the same Pauli to every wire (`eval_at`; wires outside the list carry
the identity). -/
abbrev PauliWord := List (String × Pauli)

/-- The Pauli a word applies to wire `w` (the first factor on `w`, or the
identity when the word acts trivially there). -/
def eval_at : PauliWord → String → Pauli
  | [], _ => .I
  | f :: rest, w => if f.1 = w then f.2 else eval_at rest w

/-- Modelled from the spec: `qml.Hamiltonian` as its `terms()`
decomposition — a coefficient array and the matching Pauli-word operator
list; `Hamiltonian(coeffs, ops)` stores them as given.  Coefficients are
copied verbatim by the HDF5 layer, so an integer scalar type models
them. -/
structure Hamiltonian where
  coeffs : List Int
  terms : List PauliWord

/-- First-appearance deduplication with an accumulator of already-seen
labels. -/
def dedupFirst (seen : List String) : List String → List String
  | [] => []
  | w :: ws =>
    if w ∈ seen then dedupFirst seen ws else w :: dedupFirst (w :: seen) ws

/-- Modelled from the spec: `value.wires` — the union of the term
operators' wire labels, in order of first appearance. -/
def ham_wires (value : Hamiltonian) : List String :=
  dedupFirst [] (value.terms.map (fun t => t.map Prod.fst)).flatten

/-- Modelled from the spec: `pauli_word_to_string(op, wire_map)` — the
Pauli-word string with one character per compact wire index, the character
at index `i` being the Pauli `op` applies to the wire at index `i` (`I`
where it acts trivially).  The string is modelled as its character list. -/
def pauli_word_to_string (wire_map : List String) (op : PauliWord) :
    List Pauli :=
  wire_map.map (eval_at op)

/-- Modelled from the spec: `string_to_pauli_word(pauli_string, wire_map)` —
the product of the non-identity Paulis of the string, each on the original
wire label at its index (an all-identity string denotes the identity
operator: the empty word). -/
def string_to_pauli_word (wire_map : List String) (s : List Pauli) :
    PauliWord :=
  (wire_map.zip s).filter (fun f => decide (f.2 ≠ .I))

/-- The HDF5 group `QChemHamiltonian.value_to_hdf5` creates: the `"ops"`
string array of Pauli words, the `"coeffs"` array, and the `"wires"` array
of JSON-encoded original labels (decoded form stored, see above). -/
structure HamGroup where
  ops : List (List Pauli)
  coeffs : List Int
  wires : List String

/-- `QChemHamiltonian.value_to_hdf5`: `coeffs, ops = value.terms()`; the
wire map indexes `value.wires` densely in order; each term is condensed to
its Pauli-word string; coefficients and JSON-encoded wires are written
alongside. -/
def qchem_value_to_hdf5 (value : Hamiltonian) : HamGroup :=
  { ops := value.terms.map (pauli_word_to_string (ham_wires value)),
    coeffs := value.coeffs,
    wires := ham_wires value }

/-- `QChemHamiltonian.hdf5_to_value`: rebuilds the wire map from the stored
`"wires"` array (JSON-decoded label at index `i` maps to `i`), converts each
stored Pauli-word string back to an operator on the original labels, and
returns `Hamiltonian(coeffs, ops)`. -/
def qchem_hdf5_to_value (bind : HamGroup) : Hamiltonian :=
  { coeffs := bind.coeffs,
    terms := bind.ops.map (string_to_pauli_word bind.wires) }

theorem mem_dedupFirst (w : String) (l : List String) : ∀ seen : List String,
    w ∈ dedupFirst seen l ↔ (w ∈ l ∧ w ∉ seen) := by
  induction l with
  | nil => intro seen; simp [dedupFirst]
  | cons x xs ih =>
    intro seen
    by_cases hx : x ∈ seen
    · rw [dedupFirst, if_pos hx, ih]
      constructor
      · exact fun h => ⟨List.mem_cons_of_mem x h.1, h.2⟩
      · intro h
        rw [List.mem_cons] at h
        obtain ⟨h1 | h1, h2⟩ := h
        · exact absurd (h1 ▸ hx) h2
        · exact ⟨h1, h2⟩
    · rw [dedupFirst, if_neg hx]
      simp only [List.mem_cons, ih, not_or]
      constructor
      · rintro (h1 | ⟨h1, h2, h3⟩)
        · exact ⟨Or.inl h1, h1 ▸ hx⟩
        · exact ⟨Or.inr h1, h3⟩
      · rintro ⟨h1 | h1, h2⟩
        · exact Or.inl h1
        · by_cases hwx : w = x
          · exact Or.inl hwx
          · exact Or.inr ⟨h1, hwx, h2⟩

/-- Every label of every term is among the Hamiltonian's wires. -/
theorem label_mem_ham_wires (value : Hamiltonian) (t : PauliWord)
    (ht : t ∈ value.terms) (f : String × Pauli) (hf : f ∈ t) :
    f.1 ∈ ham_wires value := by
  rw [ham_wires, mem_dedupFirst]
  refine ⟨?_, by simp⟩
  rw [List.mem_flatten]
  exact ⟨t.map Prod.fst, List.mem_map_of_mem _ ht, List.mem_map_of_mem _ hf⟩

/-- A word with all its labels in `wires` acts as the identity outside
`wires`. -/
theorem eval_at_not_mem (t : PauliWord) (w : String) (wires : List String)
    (hsub : ∀ f ∈ t, f.1 ∈ wires) (hw : w ∉ wires) : eval_at t w = .I := by
  induction t with
  | nil => rfl
  | cons f rest ih =>
    rw [eval_at]
    by_cases h : f.1 = w
    · exact absurd (h ▸ hsub f (List.mem_cons_self f rest)) hw
    · rw [if_neg h]
      exact ih fun g hg => hsub g (List.mem_cons_of_mem f hg)

theorem eval_at_cons (f : String × Pauli) (L : PauliWord) (w : String) :
    eval_at (f :: L) w = if f.1 = w then f.2 else eval_at L w := by
  rw [eval_at]

/-- Decoding the encoding of a word gives a word applying the same Pauli on
every wire of the map, and the identity elsewhere. -/
theorem eval_at_filter (t : PauliWord) (wires : List String) (w : String) :
    eval_at ((wires.zip (wires.map (eval_at t))).filter
      (fun f => decide (f.2 ≠ .I))) w =
      if w ∈ wires then eval_at t w else .I := by
  induction wires with
  | nil => simp [eval_at]
  | cons x rest ih =>
    rw [List.map_cons, List.zip_cons_cons, List.filter_cons]
    by_cases hI : eval_at t x = .I
    · rw [if_neg (by simp [hI])]
      rw [ih]
      by_cases hwx : w = x
      · subst hwx
        by_cases hr : w ∈ rest <;> simp [hr, hI]
      · simp [List.mem_cons, hwx]
    · rw [if_pos (by simpa using hI), eval_at_cons, ih]
      by_cases hwx : w = x
      · subst hwx
        simp
      · rw [if_neg (fun he => hwx he.symm)]
        simp [List.mem_cons, hwx]

/-- Round trip of one Pauli word through the condensed string encoding:
equal as an operator on every wire. -/
theorem pauli_round_eval (wires : List String) (t : PauliWord)
    (hsub : ∀ f ∈ t, f.1 ∈ wires) (w : String) :
    eval_at (string_to_pauli_word wires (pauli_word_to_string wires t)) w =
      eval_at t w := by
  rw [string_to_pauli_word, pauli_word_to_string, eval_at_filter]
  by_cases hw : w ∈ wires
  · rw [if_pos hw]
  · rw [if_neg hw, eval_at_not_mem t w wires hsub hw]

/-- C6: `QChemHamiltonian.value_to_hdf5` writes the condensed encoding —
Pauli-word strings under `"ops"` (one per term, via the dense wire→index
remapping), the matching coefficient array under `"coeffs"`, and the
original wire labels (order of first appearance) under `"wires"` — and
`QChemHamiltonian.hdf5_to_value` on that group reconstructs a Hamiltonian
with coefficients equal to the originals and terms equal, as operators on
the original wire labels, to the original terms. -/
theorem c6_qchem_round_trip (value : Hamiltonian) :
    (qchem_value_to_hdf5 value).wires = ham_wires value ∧
    (qchem_value_to_hdf5 value).ops.length = value.terms.length ∧
    (qchem_value_to_hdf5 value).coeffs = value.coeffs ∧
    (qchem_hdf5_to_value (qchem_value_to_hdf5 value)).coeffs = value.coeffs ∧
    List.Forall₂ (fun t' t => ∀ w, eval_at t' w = eval_at t w)
      (qchem_hdf5_to_value (qchem_value_to_hdf5 value)).terms value.terms := by
  refine ⟨rfl, by simp [qchem_value_to_hdf5], rfl, rfl, ?_⟩
  have hgen : ∀ l : List PauliWord,
      (∀ t ∈ l, ∀ f ∈ t, f.1 ∈ ham_wires value) →
      List.Forall₂ (fun t' t => ∀ w, eval_at t' w = eval_at t w)
        (l.map (fun t => string_to_pauli_word (ham_wires value)
          (pauli_word_to_string (ham_wires value) t))) l := by
    intro l hl
    induction l with
    | nil => exact List.Forall₂.nil
    | cons t rest ih =>
      refine List.Forall₂.cons (fun w => ?_)
        (ih fun t' ht' => hl t' (List.mem_cons_of_mem t ht'))
      exact pauli_round_eval (ham_wires value) t
        (hl t (List.mem_cons_self t rest)) w
  have := hgen value.terms (fun t ht f hf => label_mem_ham_wires value t ht f hf)
  simpa [qchem_hdf5_to_value, qchem_value_to_hdf5, List.map_map,
    Function.comp] using this

end PLData
